import Mathlib

/-!
Shallow embedding of the signal-scoring and cluster-detection core of the
Stocks insider-trading repository (src/app.py, src/scheduler.py), together
with proofs settling the specification claims about it.

Conventions of the embedding:
* a pandas row becomes the structure `Row`; trade/filing dates are calendar
  days counted as integers (`pandas.Timestamp` at day granularity, with
  `timedelta(days=w)` becoming integer subtraction);
* `Shares` is an integer, `Price` an exact rational (the source holds float
  dollars; every literal the code compares against is exactly representable);
* the derived `SignalStrength` column is a field of `Row`, `0` until the
  scorer fills it in;
* dataframes become `List Row`; pandas bulk operations are translated to the
  corresponding list operations.
-/

/-- Test `leadsWith pat s`: `pat` is an initial segment of `s` (on char lists). -/
def leadsWith : List Char → List Char → Bool
  | [], _ => true
  | _ :: _, [] => false
  | a :: as, b :: bs => a == b && leadsWith as bs

/-- Python's substring containment `pat in s`, on char lists: some suffix of
`s` starts with `pat` (the empty pattern is contained in everything). -/
def containsSub (pat : List Char) : List Char → Bool
  | [] => leadsWith pat []
  | c :: rest => leadsWith pat (c :: rest) || containsSub pat rest

/-- Lowercasing as Python's `str.lower()` acts on the ASCII titles and trade
types in this data: per-character lowering. -/
def lowerData (s : String) : List Char :=
  s.data.map Char.toLower

/-- One row of the normalized insider-trade table. -/
structure Row where
  filingDate : Int := 0
  tradeDate : Int := 0
  ticker : String := ""
  insiderName : String := ""
  title : String := ""
  tradeType : String := ""
  shares : Int := 0
  price : Rat := 0
  signalStrength : Int := 0
deriving Repr, DecidableEq, Inhabited

/-- Function `calculate_signal_strength` from src/app.py lines 58-79, translated
statement by statement: four `Shares` tiers, then `row['Title'].lower()`
substring tiers (note: the first tier tests only `'ceo'`), then two `Price`
tiers; the additions accumulate sequentially as in the source. -/
def calculate_signal_strength (row : Row) : Int :=
  let score : Int := 0
  let score :=
    if row.shares ≥ 1000000 then score + 35
    else if row.shares ≥ 500000 then score + 25
    else if row.shares ≥ 100000 then score + 15
    else if row.shares ≥ 25000 then score + 5
    else score
  let title := lowerData row.title
  let score :=
    if containsSub ("ceo".data) title then score + 30
    else if containsSub ("cfo".data) title then score + 20
    else if containsSub ("director".data) title || containsSub ("officer".data) title
      then score + 10
    else score
  let score :=
    if row.price ≤ 2 then score + 10
    else if row.price ≤ 5 then score + 5
    else score
  score

/-- Function `calculate_signal_strength` from src/scheduler.py lines 35-50: identical
to the app.py scorer except that the first title tier tests
`"ceo" in title or "chief executive" in title`. -/
def calculate_signal_strength_sched (row : Row) : Int :=
  let score : Int := 0
  let score :=
    if row.shares ≥ 1000000 then score + 35
    else if row.shares ≥ 500000 then score + 25
    else if row.shares ≥ 100000 then score + 15
    else if row.shares ≥ 25000 then score + 5
    else score
  let title := lowerData row.title
  let score :=
    if containsSub ("ceo".data) title || containsSub ("chief executive".data) title
      then score + 30
    else if containsSub ("cfo".data) title then score + 20
    else if containsSub ("director".data) title || containsSub ("officer".data) title
      then score + 10
    else score
  let score :=
    if row.price ≤ 2 then score + 10
    else if row.price ≤ 5 then score + 5
    else score
  score

/-- Size tier of the score in the spec's words (§4.1): by `shares`, highest
matching threshold wins. -/
def sizeComponent (shares : Int) : Int :=
  if shares ≥ 1000000 then 35
  else if shares ≥ 500000 then 25
  else if shares ≥ 100000 then 15
  else if shares ≥ 25000 then 5
  else 0

/-- Seniority tier exactly as claim C1 (and spec §4.1) states it:
case-insensitive substring match on the title, first match wins:
"ceo" or "chief executive" → 30; else "cfo" → 20; else "director" or
"officer" → 10; else 0. -/
def claimSeniorityComponent (title : String) : Int :=
  if containsSub ("ceo".data) (lowerData title)
      || containsSub ("chief executive".data) (lowerData title) then 30
  else if containsSub ("cfo".data) (lowerData title) then 20
  else if containsSub ("director".data) (lowerData title)
      || containsSub ("officer".data) (lowerData title) then 10
  else 0

/-- Seniority tier as src/app.py actually implements it: the first tier
matches only "ceo" (no "chief executive" alternative). -/
def appSeniorityComponent (title : String) : Int :=
  if containsSub ("ceo".data) (lowerData title) then 30
  else if containsSub ("cfo".data) (lowerData title) then 20
  else if containsSub ("director".data) (lowerData title)
      || containsSub ("officer".data) (lowerData title) then 10
  else 0

/-- Price tier in the spec's words (§4.1): ≤ 2.00 → 10; else ≤ 5.00 → 5;
else 0. -/
def priceComponent (price : Rat) : Int :=
  if price ≤ 2 then 10 else if price ≤ 5 then 5 else 0

example : calculate_signal_strength { shares := 1500000, title := "CEO", price := mkRat 3 2 } = 75 := by
  decide

example : calculate_signal_strength { shares := 0, title := "Chief Executive", price := 10 } = 0 := by
  decide

example : calculate_signal_strength_sched
    { shares := 0, title := "Chief Executive", price := 10 } = 30 := by
  decide

/-- Accumulating four alternative tier additions equals adding the tier
value chosen by the same conditions. -/
theorem addTier4 (s x1 x2 x3 x4 : Int) (c1 c2 c3 c4 : Prop)
    [Decidable c1] [Decidable c2] [Decidable c3] [Decidable c4] :
    (if c1 then s + x1 else if c2 then s + x2 else if c3 then s + x3
      else if c4 then s + x4 else s)
    = s + (if c1 then x1 else if c2 then x2 else if c3 then x3
      else if c4 then x4 else 0) := by
  split_ifs <;> omega

/-- Accumulating three alternative tier additions equals adding the tier
value chosen by the same conditions. -/
theorem addTier3 (s x1 x2 x3 : Int) (c1 c2 c3 : Prop)
    [Decidable c1] [Decidable c2] [Decidable c3] :
    (if c1 then s + x1 else if c2 then s + x2 else if c3 then s + x3 else s)
    = s + (if c1 then x1 else if c2 then x2 else if c3 then x3 else 0) := by
  split_ifs <;> omega

/-- Accumulating two alternative tier additions equals adding the tier value
chosen by the same conditions. -/
theorem addTier2 (s x1 x2 : Int) (c1 c2 : Prop) [Decidable c1] [Decidable c2] :
    (if c1 then s + x1 else if c2 then s + x2 else s)
    = s + (if c1 then x1 else if c2 then x2 else 0) := by
  split_ifs <;> omega

/-- The app.py scorer decomposes as size tier + seniority tier + price
tier. -/
theorem app_score_decomp (row : Row) : calculate_signal_strength row =
    sizeComponent row.shares + appSeniorityComponent row.title + priceComponent row.price := by
  unfold calculate_signal_strength sizeComponent appSeniorityComponent priceComponent
  dsimp only
  rw [addTier4, addTier3, addTier2, zero_add]

/-- The scheduler.py scorer decomposes as size tier + seniority tier (with
the "chief executive" alternative) + price tier. -/
theorem sched_score_decomp (row : Row) : calculate_signal_strength_sched row =
    sizeComponent row.shares + claimSeniorityComponent row.title + priceComponent row.price := by
  unfold calculate_signal_strength_sched sizeComponent claimSeniorityComponent priceComponent
  dsimp only
  rw [addTier4, addTier3, addTier2, zero_add]

/-- The size tier lies in [0, 35]. -/
theorem sizeComponent_bounds (shares : Int) :
    0 ≤ sizeComponent shares ∧ sizeComponent shares ≤ 35 := by
  unfold sizeComponent
  split_ifs <;> omega

/-- The app.py seniority tier lies in [0, 30]. -/
theorem appSeniorityComponent_bounds (title : String) :
    0 ≤ appSeniorityComponent title ∧ appSeniorityComponent title ≤ 30 := by
  unfold appSeniorityComponent
  split_ifs <;> omega

/-- The claimed (scheduler.py) seniority tier lies in [0, 30]. -/
theorem claimSeniorityComponent_bounds (title : String) :
    0 ≤ claimSeniorityComponent title ∧ claimSeniorityComponent title ≤ 30 := by
  unfold claimSeniorityComponent
  split_ifs <;> omega

/-- The price tier lies in [0, 10]. -/
theorem priceComponent_bounds (price : Rat) :
    0 ≤ priceComponent price ∧ priceComponent price ≤ 10 := by
  unfold priceComponent
  split_ifs <;> omega

/-- Claim C5 (confirmed): for every record the score is the sum of three
independent components — the size tier on shares (≥1,000,000 → 35, else
≥500,000 → 25, else ≥100,000 → 15, else ≥25,000 → 5, else 0), the seniority
tier on the title, and the price tier (≤2.00 → 10, else ≤5.00 → 5, else 0) —
and the record shares=1,500,000, title="CEO", price=1.50 scores exactly 75. -/
theorem c5_score_is_sum_of_components :
    (∀ row : Row, calculate_signal_strength row =
      sizeComponent row.shares + appSeniorityComponent row.title + priceComponent row.price) ∧
    calculate_signal_strength { shares := 1500000, title := "CEO", price := mkRat 3 2 } = 75 :=
  ⟨app_score_decomp, by decide⟩

/-- Claim C1, counterexample: the record with title "Chief Executive"
(shares 0, price 10) is scored 0 by src/app.py's
`calculate_signal_strength`, whereas the claimed seniority rule ("ceo" or
"chief executive" → +30, first match winning) would make the score 30: the
claim is false of the app.py scorer. -/
theorem c1_counterexample :
    calculate_signal_strength { shares := 0, title := "Chief Executive", price := 10 } = 0 ∧
    sizeComponent 0 + claimSeniorityComponent "Chief Executive" + priceComponent 10 = 30 :=
  ⟨by decide, by decide⟩

/-- Claim C1 as amended: the seniority component is decided by
case-insensitive substring match on the title in priority order, first match
winning, but the first tier differs between the two scorers: in
src/scheduler.py it is "ceo" or "chief executive" → +30 (exactly as the
claim states), while in src/app.py it is "ceo" alone → +30; the remaining
tiers ("cfo" → +20, "director" or "officer" → +10, else +0) agree. -/
theorem c1_amended_seniority_components :
    (∀ row : Row, calculate_signal_strength_sched row =
      sizeComponent row.shares + claimSeniorityComponent row.title + priceComponent row.price) ∧
    (∀ row : Row, calculate_signal_strength row =
      sizeComponent row.shares + appSeniorityComponent row.title + priceComponent row.price) :=
  ⟨sched_score_decomp, app_score_decomp⟩

/-- Claim C8 (confirmed): both scorers return a non-negative score, and the
score is a deterministic pure function of (shares, price, title) only: two
records agreeing on those three fields (whatever their ticker, insider,
dates or trade type) receive equal scores. -/
theorem c8_score_nonneg_and_field_determined :
    (∀ row : Row, 0 ≤ calculate_signal_strength row) ∧
    (∀ row : Row, 0 ≤ calculate_signal_strength_sched row) ∧
    (∀ r s : Row, r.shares = s.shares → r.price = s.price → r.title = s.title →
      calculate_signal_strength r = calculate_signal_strength s) ∧
    (∀ r s : Row, r.shares = s.shares → r.price = s.price → r.title = s.title →
      calculate_signal_strength_sched r = calculate_signal_strength_sched s) := by
  refine ⟨fun row => ?_, fun row => ?_, fun r s h1 h2 h3 => ?_, fun r s h1 h2 h3 => ?_⟩
  · rw [app_score_decomp]
    have hs := sizeComponent_bounds row.shares
    have ht := appSeniorityComponent_bounds row.title
    have hp := priceComponent_bounds row.price
    omega
  · rw [sched_score_decomp]
    have hs := sizeComponent_bounds row.shares
    have ht := claimSeniorityComponent_bounds row.title
    have hp := priceComponent_bounds row.price
    omega
  · rw [app_score_decomp, app_score_decomp, h1, h2, h3]
  · rw [sched_score_decomp, sched_score_decomp, h1, h2, h3]

/-- Claim C8 witness: two records differing in ticker, insider name and
dates but agreeing on (shares, price, title) get the same score. -/
theorem c8_witness :
    calculate_signal_strength
      { ticker := "AAA", insiderName := "X", tradeDate := 3, shares := 50000,
        title := "CEO", price := 10 } =
    calculate_signal_strength
      { ticker := "BBB", insiderName := "Y", tradeDate := 9, shares := 50000,
        title := "CEO", price := 10 } :=
  c8_score_nonneg_and_field_determined.2.2.1 _ _ rfl rfl rfl

/-- Claim C10 (confirmed): for every record with non-negative shares (indeed
for every record) the score of either scorer is at most 75, so the attached
signal strength never exceeds the 100 cap displayed by callers. -/
theorem c10_score_le_75 :
    ∀ row : Row, 0 ≤ row.shares →
      calculate_signal_strength row ≤ 75 ∧ calculate_signal_strength_sched row ≤ 75 := by
  intro row _
  rw [app_score_decomp, sched_score_decomp]
  have hs := sizeComponent_bounds row.shares
  have ht := appSeniorityComponent_bounds row.title
  have ht2 := claimSeniorityComponent_bounds row.title
  have hp := priceComponent_bounds row.price
  omega

/-- Claim C10 witness at a maximal-scoring record. -/
theorem c10_witness :
    (0 : Int) ≤ 1500000 ∧
      (calculate_signal_strength { shares := 1500000, title := "CEO", price := mkRat 3 2 } ≤ 75 ∧
       calculate_signal_strength_sched { shares := 1500000, title := "CEO", price := mkRat 3 2 } ≤ 75) :=
  ⟨by decide, c10_score_le_75 _ (by decide)⟩

/-- Ordering of group keys: `df.groupby('Ticker')` yields groups in sorted
key order. -/
def tickLe (a b : String) : Prop := a ≤ b

instance : DecidableRel tickLe := fun a b => inferInstanceAs (Decidable (a ≤ b))

/-- Row ordering used by `grp.sort_values('TradeDate')`. -/
def dateLe (a b : Row) : Prop := a.tradeDate ≤ b.tradeDate

instance : DecidableRel dateLe := fun a b => Int.decLe a.tradeDate b.tradeDate

/-- One detected cluster: a dict appended to the `clusters` list in
src/app.py's `detect_clusters`. -/
structure Cluster where
  ticker : String
  windowStart : Int
  endDate : Int
  numInsiders : Nat
  totalShares : Int
  clusterScore : Int
deriving Repr, DecidableEq, Inhabited

/-- Function `detect_clusters` from src/app.py lines 83-100. `df.groupby('Ticker')`
iterates groups in sorted key order, each group listing its rows in input
order; `grp.sort_values('TradeDate')` sorts the group by trade date (modelled
with a stable sort — the emitted list of cluster dicts does not depend on how
date-equal rows are ordered, since a window, and hence the dict built from
it, is determined by the anchor's ticker and date alone, and date-equal
anchors yield identical dicts); `window['InsiderName'].nunique()` is the
number of distinct insider names in the window;
`r['TradeDate'] - timedelta(days=days_window)` is integer subtraction on day
numbers. Both parameters are Python ints, hence `Int` here. -/
def detect_clusters (df : List Row) (days_window : Int) (min_insiders : Int) : List Cluster :=
  (List.insertionSort tickLe ((df.map (fun r => r.ticker)).dedup)).flatMap (fun ticker =>
    let grp := List.insertionSort dateLe (df.filter (fun r => r.ticker == ticker))
    grp.filterMap (fun r =>
      let start := r.tradeDate - days_window
      let window := grp.filter (fun x =>
        decide (start ≤ x.tradeDate) && decide (x.tradeDate ≤ r.tradeDate))
      let ins := (window.map (fun x => x.insiderName)).dedup.length
      if min_insiders ≤ (ins : Int) then
        some { ticker := ticker, windowStart := start, endDate := r.tradeDate,
               numInsiders := ins,
               totalShares := (window.map (fun x => x.shares)).sum,
               clusterScore := (window.map (fun x => x.signalStrength)).sum + (ins : Int) * 5 }
      else none))

/-- The trailing window that `detect_clusters` forms for anchor `r`, read off
the whole input: the rows of `r`'s ticker whose trade date lies in
[r.tradeDate − w, r.tradeDate]. -/
def windowRows (df : List Row) (r : Row) (w : Int) : List Row :=
  (df.filter (fun x => x.ticker == r.ticker)).filter (fun x =>
    decide (r.tradeDate - w ≤ x.tradeDate) && decide (x.tradeDate ≤ r.tradeDate))

/-- Number of distinct insider names in a list of rows (pandas `nunique`). -/
def nuniqueNames (l : List Row) : Nat :=
  (l.map (fun x => x.insiderName)).dedup.length

/-- The cluster dict that anchor `r` would contribute, phrased over the
unsorted input. -/
def clusterOf (df : List Row) (r : Row) (w : Int) : Cluster :=
  { ticker := r.ticker, windowStart := r.tradeDate - w, endDate := r.tradeDate,
    numInsiders := nuniqueNames (windowRows df r w),
    totalShares := ((windowRows df r w).map (fun x => x.shares)).sum,
    clusterScore := ((windowRows df r w).map (fun x => x.signalStrength)).sum
      + (nuniqueNames (windowRows df r w) : Int) * 5 }

/-- The window taken inside `detect_clusters` (a filter of the date-sorted
ticker group) is a permutation of `windowRows` over the raw input. -/
theorem grpWindow_perm (df : List Row) (r : Row) (w : Int) :
    List.Perm
      ((List.insertionSort dateLe (df.filter (fun x => x.ticker == r.ticker))).filter (fun x =>
        decide (r.tradeDate - w ≤ x.tradeDate) && decide (x.tradeDate ≤ r.tradeDate)))
      (windowRows df r w) :=
  (List.perm_insertionSort dateLe _).filter _

/-- Membership description of `detect_clusters`: the emitted clusters are
exactly the `clusterOf` records of anchors in the input whose window reaches
the distinct-insider threshold. -/
theorem mem_detect_clusters {df : List Row} {w m : Int} {c : Cluster} :
    c ∈ detect_clusters df w m ↔
      ∃ r ∈ df, m ≤ (nuniqueNames (windowRows df r w) : Int) ∧ c = clusterOf df r w := by
  unfold detect_clusters
  rw [List.mem_flatMap]
  constructor
  · rintro ⟨t, ht, hc⟩
    rw [List.mem_filterMap] at hc
    obtain ⟨r, hr, hg⟩ := hc
    dsimp only at hg
    rw [Option.ite_none_right_eq_some] at hg
    obtain ⟨hguard, hbuild⟩ := hg
    have hrg : r ∈ df.filter (fun x => x.ticker == t) :=
      ((List.perm_insertionSort dateLe _).mem_iff).mp hr
    rw [List.mem_filter] at hrg
    obtain ⟨hrdf, hrt⟩ := hrg
    have hticker : r.ticker = t := by simpa using hrt
    subst hticker
    have hperm := grpWindow_perm df r w
    have hnum : ((List.insertionSort dateLe (df.filter (fun x => x.ticker == r.ticker))).filter
        (fun x => decide (r.tradeDate - w ≤ x.tradeDate) && decide (x.tradeDate ≤ r.tradeDate))
        |>.map (fun x => x.insiderName)).dedup.length = nuniqueNames (windowRows df r w) :=
      ((hperm.map (fun x => x.insiderName)).dedup).length_eq
    have hsh : ((List.insertionSort dateLe (df.filter (fun x => x.ticker == r.ticker))).filter
        (fun x => decide (r.tradeDate - w ≤ x.tradeDate) && decide (x.tradeDate ≤ r.tradeDate))
        |>.map (fun x => x.shares)).sum = ((windowRows df r w).map (fun x => x.shares)).sum :=
      (hperm.map (fun x => x.shares)).sum_eq
    have hsg : ((List.insertionSort dateLe (df.filter (fun x => x.ticker == r.ticker))).filter
        (fun x => decide (r.tradeDate - w ≤ x.tradeDate) && decide (x.tradeDate ≤ r.tradeDate))
        |>.map (fun x => x.signalStrength)).sum
        = ((windowRows df r w).map (fun x => x.signalStrength)).sum :=
      (hperm.map (fun x => x.signalStrength)).sum_eq
    refine ⟨r, hrdf, ?_, ?_⟩
    · rw [← hnum]
      exact hguard
    · have hb := Option.some.inj hbuild
      rw [← hb]
      unfold clusterOf
      rw [Cluster.mk.injEq]
      exact ⟨rfl, rfl, rfl, hnum, hsh, by rw [hsg, hnum]⟩
  · rintro ⟨r, hrdf, hguard, hc⟩
    refine ⟨r.ticker, ?_, ?_⟩
    · rw [List.mem_insertionSort, List.mem_dedup]
      exact List.mem_map_of_mem (fun r => r.ticker) hrdf
    · rw [List.mem_filterMap]
      refine ⟨r, ?_, ?_⟩
      · rw [List.mem_insertionSort, List.mem_filter]
        exact ⟨hrdf, by simp⟩
      · dsimp only
        have hperm := grpWindow_perm df r w
        have hnum : ((List.insertionSort dateLe (df.filter (fun x => x.ticker == r.ticker))).filter
            (fun x => decide (r.tradeDate - w ≤ x.tradeDate) && decide (x.tradeDate ≤ r.tradeDate))
            |>.map (fun x => x.insiderName)).dedup.length = nuniqueNames (windowRows df r w) :=
          ((hperm.map (fun x => x.insiderName)).dedup).length_eq
        have hsh : ((List.insertionSort dateLe (df.filter (fun x => x.ticker == r.ticker))).filter
            (fun x => decide (r.tradeDate - w ≤ x.tradeDate) && decide (x.tradeDate ≤ r.tradeDate))
            |>.map (fun x => x.shares)).sum = ((windowRows df r w).map (fun x => x.shares)).sum :=
          (hperm.map (fun x => x.shares)).sum_eq
        have hsg : ((List.insertionSort dateLe (df.filter (fun x => x.ticker == r.ticker))).filter
            (fun x => decide (r.tradeDate - w ≤ x.tradeDate) && decide (x.tradeDate ≤ r.tradeDate))
            |>.map (fun x => x.signalStrength)).sum
            = ((windowRows df r w).map (fun x => x.signalStrength)).sum :=
          (hperm.map (fun x => x.signalStrength)).sum_eq
        rw [Option.ite_none_right_eq_some]
        refine ⟨by rw [hnum]; exact hguard, ?_⟩
        rw [hc]
        unfold clusterOf
        rw [Option.some_inj, Cluster.mk.injEq]
        exact ⟨rfl, rfl, rfl, hnum, hsh, by rw [hsg, hnum]⟩

/-- Demo data: three purchases of one ticker by three distinct insiders on
three consecutive days (signal strengths preset as the scored column). -/
def rowA : Row :=
  { tradeDate := 0, ticker := "ABC", insiderName := "Alice", title := "CEO",
    tradeType := "P - Purchase", shares := 30000, price := 1, signalStrength := 45 }

/-- Second demo purchase. -/
def rowB : Row :=
  { tradeDate := 1, ticker := "ABC", insiderName := "Bob", title := "CFO",
    tradeType := "P - Purchase", shares := 120000, price := 3, signalStrength := 40 }

/-- Third demo purchase. -/
def rowC : Row :=
  { tradeDate := 2, ticker := "ABC", insiderName := "Cara", title := "Director",
    tradeType := "P - Purchase", shares := 600000, price := 8, signalStrength := 35 }

/-- Demo table of the three purchases. -/
def dfABC : List Row := [rowA, rowB, rowC]

/-- Claim C6 (confirmed): every emitted cluster belongs to an anchor record
`r` of the input: its `totalShares` is the sum of `shares` over the anchor's
window, its `numInsiders` is the number of distinct insider names in that
window, and its `clusterScore` is the sum of `signalStrength` over the
window plus 5 × numInsiders; moreover, for every anchor, its cluster is
emitted if and only if the distinct-insider count of its window reaches
`minInsiders`. -/
theorem c6_cluster_sums_and_threshold (df : List Row) (w m : Int) :
    (∀ c ∈ detect_clusters df w m, ∃ r ∈ df,
      c.ticker = r.ticker ∧ c.endDate = r.tradeDate ∧
      c.totalShares = ((windowRows df r w).map (fun x => x.shares)).sum ∧
      c.numInsiders = nuniqueNames (windowRows df r w) ∧
      c.clusterScore = ((windowRows df r w).map (fun x => x.signalStrength)).sum
        + 5 * (c.numInsiders : Int) ∧
      m ≤ (c.numInsiders : Int)) ∧
    (∀ r ∈ df, (m ≤ (nuniqueNames (windowRows df r w) : Int) ↔
      clusterOf df r w ∈ detect_clusters df w m)) := by
  constructor
  · intro c hc
    obtain ⟨r, hrdf, hguard, hceq⟩ := mem_detect_clusters.mp hc
    subst hceq
    refine ⟨r, hrdf, rfl, rfl, rfl, rfl, ?_, ?_⟩
    · unfold clusterOf
      dsimp only
      ring
    · exact hguard
  · intro r hrdf
    constructor
    · intro hm
      exact mem_detect_clusters.mpr ⟨r, hrdf, hm, rfl⟩
    · intro hmem
      obtain ⟨r2, _, hg2, heq⟩ := mem_detect_clusters.mp hmem
      have hnum : nuniqueNames (windowRows df r w) = nuniqueNames (windowRows df r2 w) :=
        congrArg Cluster.numInsiders heq
      rw [hnum]
      exact hg2

/-- Claim C6 witness: in the demo table, the anchor `rowC` reaches a
2-insider threshold, so its cluster is emitted. -/
theorem c6_witness : clusterOf dfABC rowC 7 ∈ detect_clusters dfABC 7 2 :=
  ((c6_cluster_sums_and_threshold dfABC 7 2).2 rowC (by decide)).mp (by decide)

/-- Claim C7 (confirmed): every emitted cluster has `numInsiders` at least
`minInsiders`, and comes from an anchor record in the input such that
`windowEnd` equals the anchor's trade date, `windowStart` equals the
anchor's trade date minus `windowDays`, and every member record of its
window is dated within [windowStart, windowEnd] inclusive. -/
theorem c7_cluster_window_invariants (df : List Row) (w m : Int) :
    ∀ c ∈ detect_clusters df w m,
      m ≤ (c.numInsiders : Int) ∧
      ∃ r ∈ df, c.endDate = r.tradeDate ∧ c.windowStart = r.tradeDate - w ∧
        ∀ x ∈ windowRows df r w, c.windowStart ≤ x.tradeDate ∧ x.tradeDate ≤ c.endDate := by
  intro c hc
  obtain ⟨r, hrdf, hguard, hceq⟩ := mem_detect_clusters.mp hc
  subst hceq
  refine ⟨hguard, r, hrdf, rfl, rfl, ?_⟩
  intro x hx
  unfold windowRows at hx
  rw [List.mem_filter] at hx
  obtain ⟨-, hx2⟩ := hx
  simp only [Bool.and_eq_true, decide_eq_true_eq] at hx2
  exact hx2

/-- Claim C7 witness at the demo table. -/
theorem c7_witness :
    2 ≤ ((clusterOf dfABC rowC 7).numInsiders : Int) ∧
    ∃ r ∈ dfABC, (clusterOf dfABC rowC 7).endDate = r.tradeDate ∧
      (clusterOf dfABC rowC 7).windowStart = r.tradeDate - 7 ∧
      ∀ x ∈ windowRows dfABC r 7,
        (clusterOf dfABC rowC 7).windowStart ≤ x.tradeDate ∧
        x.tradeDate ≤ (clusterOf dfABC rowC 7).endDate :=
  c7_cluster_window_invariants dfABC 7 2 (clusterOf dfABC rowC 7) (by decide)

/-- Claim C2, counterexample: called with `minInsiders = 0` (violating the
claimed precondition `minInsiders ≥ 1`) on a one-record input,
`detect_clusters` does not fail: it returns a (non-empty) result
collection — there is no validation code on lines 83-100 of src/app.py. -/
theorem c2_counterexample :
    detect_clusters [rowA] 7 0 =
      [{ ticker := "ABC", windowStart := -7, endDate := 0, numInsiders := 1,
         totalShares := 30000, clusterScore := 50 }] := by
  decide

/-- Claim C2 as amended: `detect_clusters` performs no precondition
validation: it is a total function, and for any `minInsiders ≤ 0` (hence in
particular the claimed-invalid `minInsiders < 1`) it silently returns a
result collection containing a cluster for every anchor record of the input
instead of failing fast. (The dashboard UI, not the core, keeps the
parameters in range: `number_input` minimums 2 and 1 on lines 154-155 of
src/app.py.) -/
theorem c2_amended_no_validation (df : List Row) (w m : Int) (hm : m ≤ 0) :
    ∀ r ∈ df, ∃ c ∈ detect_clusters df w m,
      c.ticker = r.ticker ∧ c.endDate = r.tradeDate := by
  intro r hrdf
  refine ⟨clusterOf df r w, mem_detect_clusters.mpr ⟨r, hrdf, ?_, rfl⟩, rfl, rfl⟩
  omega

/-- Claim C2 witness: the amended statement at the concrete invalid call. -/
theorem c2_witness :
    (0 : Int) ≤ 0 ∧ ∃ c ∈ detect_clusters [rowA] 7 0,
      c.ticker = rowA.ticker ∧ c.endDate = rowA.tradeDate :=
  ⟨le_refl 0, c2_amended_no_validation [rowA] 7 0 (le_refl 0) rowA (by decide)⟩

/-- A `filterMap` over three elements where only the third produces a value
yields exactly that value. -/
theorem filterMap_three_last {α β : Type} (f : α → Option β) (a b c : α) (y : β)
    (h1 : f a = none) (h2 : f b = none) (h3 : f c = some y) :
    List.filterMap f [a, b, c] = [y] := by
  simp [List.filterMap_cons, h1, h2, h3]

/-- Counterexample rows for claim C4: three purchases of one ticker by three
distinct insiders dated 0, 3, 3 — all within a 3-day span. -/
def rowD0 : Row :=
  { tradeDate := 0, ticker := "ABC", insiderName := "Alice", title := "CEO",
    tradeType := "P - Purchase", shares := 30000, price := 1, signalStrength := 45 }

/-- Second C4 counterexample row (date 3). -/
def rowD3a : Row :=
  { tradeDate := 3, ticker := "ABC", insiderName := "Bob", title := "CFO",
    tradeType := "P - Purchase", shares := 120000, price := 3, signalStrength := 40 }

/-- Third C4 counterexample row (also date 3). -/
def rowD3b : Row :=
  { tradeDate := 3, ticker := "ABC", insiderName := "Cara", title := "Director",
    tradeType := "P - Purchase", shares := 600000, price := 8, signalStrength := 35 }

/-- Claim C4, counterexample: three purchase records of one ticker by three
distinct insiders whose trade dates (0, 3, 3) all lie within a 3-day span,
yet `detect_clusters(records, 7, 3)` emits two clusters, not exactly one:
both records dated 3 anchor a qualifying window, because the detector emits
one cluster per qualifying anchor and the latest date is duplicated. -/
theorem c4_counterexample :
    (rowD3a.ticker = rowD0.ticker ∧ rowD3b.ticker = rowD0.ticker) ∧
    (rowD0.insiderName ≠ rowD3a.insiderName ∧ rowD0.insiderName ≠ rowD3b.insiderName ∧
      rowD3a.insiderName ≠ rowD3b.insiderName) ∧
    (rowD3a.tradeDate - rowD0.tradeDate ≤ 3 ∧ rowD3b.tradeDate - rowD0.tradeDate ≤ 3 ∧
      rowD0.tradeDate ≤ rowD3a.tradeDate ∧ rowD0.tradeDate ≤ rowD3b.tradeDate) ∧
    (detect_clusters [rowD0, rowD3a, rowD3b] 7 3).length = 2 := by
  decide

/-- Claim C4 as amended: for three purchase records of one ticker by three
distinct insiders whose trade dates lie within a 3-day span and whose latest
trade date is unique (records listed in date order, which is no restriction
since the detector re-sorts by date), `detect_clusters(records, 7, 3)` emits
exactly one cluster — the one anchored at the latest record — and it has
`numInsiders = 3`; and (for any three records whatsoever)
`detect_clusters(records, 7, 4)` emits zero clusters. -/
theorem c4_amended_scenario (r1 r2 r3 : Row)
    (ht2 : r2.ticker = r1.ticker) (ht3 : r3.ticker = r1.ticker)
    (hn12 : r1.insiderName ≠ r2.insiderName)
    (hn13 : r1.insiderName ≠ r3.insiderName)
    (hn23 : r2.insiderName ≠ r3.insiderName)
    (hd12 : r1.tradeDate ≤ r2.tradeDate) (hd23 : r2.tradeDate < r3.tradeDate)
    (hspan : r3.tradeDate ≤ r1.tradeDate + 3) :
    detect_clusters [r1, r2, r3] 7 3 = [clusterOf [r1, r2, r3] r3 7] ∧
    (clusterOf [r1, r2, r3] r3 7).numInsiders = 3 ∧
    (∀ df : List Row, df.length = 3 → detect_clusters df 7 4 = []) := by
  have hw3 : List.filter (fun x =>
      decide (r3.tradeDate - 7 ≤ x.tradeDate) && decide (x.tradeDate ≤ r3.tradeDate))
      [r1, r2, r3] = [r1, r2, r3] := by
    simp only [List.filter_cons, List.filter_nil, Bool.and_eq_true, decide_eq_true_eq]
    rw [if_pos ⟨by omega, by omega⟩, if_pos ⟨by omega, by omega⟩, if_pos ⟨by omega, by omega⟩]
  have hw2 : List.filter (fun x =>
      decide (r2.tradeDate - 7 ≤ x.tradeDate) && decide (x.tradeDate ≤ r2.tradeDate))
      [r1, r2, r3] = [r1, r2] := by
    simp only [List.filter_cons, List.filter_nil, Bool.and_eq_true, decide_eq_true_eq]
    rw [if_pos ⟨by omega, by omega⟩, if_pos ⟨by omega, by omega⟩, if_neg (by omega)]
  have hnun3 : (List.map (fun x => x.insiderName) [r1, r2, r3]).dedup.length = 3 := by
    simp only [List.map_cons, List.map_nil]
    rw [List.dedup_cons_of_not_mem (by simp [hn12, hn13]),
      List.dedup_cons_of_not_mem (by simp [hn23]),
      List.dedup_cons_of_not_mem (List.not_mem_nil _), List.dedup_nil]
    rfl
  have hnun2 : (List.map (fun x => x.insiderName) [r1, r2]).dedup.length = 2 := by
    simp only [List.map_cons, List.map_nil]
    rw [List.dedup_cons_of_not_mem (by simp [hn12]),
      List.dedup_cons_of_not_mem (List.not_mem_nil _), List.dedup_nil]
    rfl
  have hwinR : windowRows [r1, r2, r3] r3 7 = [r1, r2, r3] := by
    unfold windowRows
    rw [show List.filter (fun x => x.ticker == r3.ticker) [r1, r2, r3] = [r1, r2, r3] by
      simp [List.filter_cons, ht2, ht3], hw3]
  refine ⟨?_, ?_, ?_⟩
  · unfold detect_clusters
    rw [show (List.map (fun r => r.ticker) [r1, r2, r3]).dedup = [r1.ticker] by
      simp [ht2, ht3]]
    rw [show List.insertionSort tickLe [r1.ticker] = [r1.ticker] from rfl]
    rw [List.flatMap_cons, List.flatMap_nil, List.append_nil]
    dsimp only
    rw [show List.filter (fun r => r.ticker == r1.ticker) [r1, r2, r3] = [r1, r2, r3] by
      simp [List.filter_cons, ht2, ht3]]
    rw [show List.insertionSort dateLe [r1, r2, r3] = [r1, r2, r3] by
      simp only [List.insertionSort, List.orderedInsert]
      rw [if_pos (show dateLe r2 r3 from le_of_lt hd23)]
      simp only [List.orderedInsert]
      rw [if_pos (show dateLe r1 r2 from hd12)]]
    refine filterMap_three_last _ r1 r2 r3 _ ?_ ?_ ?_
    · dsimp only
      rcases eq_or_lt_of_le hd12 with h12 | h12
      · have hw1 : List.filter (fun x =>
            decide (r1.tradeDate - 7 ≤ x.tradeDate) && decide (x.tradeDate ≤ r1.tradeDate))
            [r1, r2, r3] = [r1, r2] := by
          simp only [List.filter_cons, List.filter_nil, Bool.and_eq_true, decide_eq_true_eq]
          rw [if_pos ⟨by omega, by omega⟩, if_pos ⟨by omega, by omega⟩, if_neg (by omega)]
        rw [hw1, hnun2, if_neg (by omega)]
      · have hw1 : List.filter (fun x =>
            decide (r1.tradeDate - 7 ≤ x.tradeDate) && decide (x.tradeDate ≤ r1.tradeDate))
            [r1, r2, r3] = [r1] := by
          simp only [List.filter_cons, List.filter_nil, Bool.and_eq_true, decide_eq_true_eq]
          rw [if_pos ⟨by omega, by omega⟩, if_neg (by omega), if_neg (by omega)]
        rw [hw1, show (List.map (fun x => x.insiderName) [r1]).dedup.length = 1 by simp,
          if_neg (by omega)]
    · dsimp only
      rw [hw2, hnun2, if_neg (by omega)]
    · dsimp only
      rw [hw3, hnun3, if_pos (by omega)]
      rw [Option.some_inj]
      unfold clusterOf nuniqueNames
      rw [hwinR, hnun3, Cluster.mk.injEq]
      exact ⟨ht3.symm, rfl, rfl, rfl, rfl, rfl⟩
  · show nuniqueNames (windowRows [r1, r2, r3] r3 7) = 3
    unfold nuniqueNames
    rw [hwinR, hnun3]
  · intro df hlen
    rw [List.eq_nil_iff_forall_not_mem]
    intro c hc
    obtain ⟨r, hrdf, hguard, -⟩ := mem_detect_clusters.mp hc
    have h1 : nuniqueNames (windowRows df r 7) ≤ (windowRows df r 7).length := by
      unfold nuniqueNames
      calc (List.map (fun x => x.insiderName) (windowRows df r 7)).dedup.length
          ≤ (List.map (fun x => x.insiderName) (windowRows df r 7)).length :=
            (List.dedup_sublist _).length_le
        _ = (windowRows df r 7).length := List.length_map _ _
    have h2 : (windowRows df r 7).length ≤ df.length := by
      unfold windowRows
      exact le_trans (List.length_filter_le _ _) (List.length_filter_le _ _)
    omega

/-- Claim C4 witness: the amended scenario at dates 0 < 1 < 2. -/
theorem c4_witness :
    detect_clusters dfABC 7 3 = [clusterOf dfABC rowC 7] ∧
    (clusterOf dfABC rowC 7).numInsiders = 3 ∧
    (∀ df : List Row, df.length = 3 → detect_clusters df 7 4 = []) :=
  c4_amended_scenario rowA rowB rowC (by decide) (by decide) (by decide) (by decide)
    (by decide) (by decide) (by decide) (by decide)

/-- Value of a score array at a position (0 past the end, as positions are
always in range in the algorithms below). -/
def vAt (v : List Int) (i : Nat) : Int := v.getD i 0

/-- Position held in the tosort index array. -/
def tAt (t : List Nat) (i : Nat) : Nat := t.getD i 0

/-- Swap (`INTP_SWAP`) of two positions of the tosort array. -/
def tSwap (t : List Nat) (i j : Nat) : List Nat := (t.set i (tAt t j)).set j (tAt t i)

/-- The `do ++pi; while (v[*pi] < vp)` scan of numpy's aquicksort partition
loop: advance at least once, then keep advancing past values below the
pivot (fuel-bounded; fuel is ample at every use site). -/
def scanUp (v : List Int) (t : List Nat) (vp : Int) : Nat → Nat → Nat
  | 0, i => i + 1
  | fuel + 1, i => if vAt v (tAt t (i + 1)) < vp then scanUp v t vp fuel (i + 1) else i + 1

/-- The `do --pj; while (vp < v[*pj])` scan of the partition loop. -/
def scanDown (v : List Int) (t : List Nat) (vp : Int) : Nat → Nat → Nat
  | 0, j => j - 1
  | fuel + 1, j => if vp < vAt v (tAt t (j - 1)) then scanDown v t vp fuel (j - 1) else j - 1

/-- The partition exchange loop of numpy's aquicksort (`for (;;) { ... }`
between the two scans and `if (pi >= pj) break`): returns the updated tosort
array and the final `pi`. -/
def partLoop (v : List Int) (vp : Int) : Nat → List Nat → Nat → Nat → (List Nat × Nat)
  | 0, t, i, _ => (t, i)
  | fuel + 1, t, i, j =>
    let i2 := scanUp v t vp (fuel + 1) i
    let j2 := scanDown v t vp (fuel + 1) j
    if j2 ≤ i2 then (t, i2)
    else partLoop v vp fuel (tSwap t i2 j2) i2 j2

/-- Read `a[k]` of numpy's aheapsort on the subrange starting at `pl` (the C code
sets `a = tosort - 1` and works 1-indexed). -/
def haGet (t : List Nat) (pl k : Nat) : Nat := tAt t (pl + k - 1)

/-- Write `a[k] := x` of aheapsort. -/
def haSet (t : List Nat) (pl k : Nat) (x : Nat) : List Nat := t.set (pl + k - 1) x

/-- Sift-down inner loop of numpy's aheapsort (both the build and the pop
phase use it): returns the updated array and the final hole index `i`. -/
def siftLoop (v : List Int) (pl : Nat) (tmp : Nat) (nn : Nat) :
    Nat → List Nat → Nat → Nat → (List Nat × Nat)
  | 0, t, i, _ => (t, i)
  | fuel + 1, t, i, j =>
    if j ≤ nn then
      let j := if j < nn ∧ vAt v (haGet t pl j) < vAt v (haGet t pl (j + 1)) then j + 1 else j
      if vAt v tmp < vAt v (haGet t pl j) then
        siftLoop v pl tmp nn fuel (haSet t pl i (haGet t pl j)) j (j + j)
      else (t, i)
    else (t, i)

/-- Heap construction phase of aheapsort (`for (l = n >> 1; l > 0; --l)`). -/
def heapBuild (v : List Int) (pl nn : Nat) : Nat → List Nat → List Nat
  | 0, t => t
  | l + 1, t =>
    let tmp := haGet t pl (l + 1)
    let p := siftLoop v pl tmp nn (nn + 2) t (l + 1) ((l + 1) * 2)
    heapBuild v pl nn l (haSet p.1 pl p.2 tmp)

/-- Extraction phase of aheapsort (`for (; n > 1;)`). -/
def heapPop (v : List Int) (pl : Nat) : Nat → List Nat → List Nat
  | 0, t => t
  | 1, t => t
  | n + 2, t =>
    let tmp := haGet t pl (n + 2)
    let t := haSet t pl (n + 2) (haGet t pl 1)
    let p := siftLoop v pl tmp (n + 1) (n + 3) t 1 2
    heapPop v pl (n + 1) (haSet p.1 pl p.2 tmp)

/-- numpy's aheapsort_ on the subrange [pl, pr] of the tosort array (used by
the introsort once its depth budget is exhausted). -/
def aheapsortRange (v : List Int) (t : List Nat) (pl pr : Nat) : List Nat :=
  let nn := pr + 1 - pl
  heapPop v pl nn (heapBuild v pl nn (nn / 2) t)

/-- The `while (pj > pl && vp < v[*pk])` shift of the insertion-sort phase
of aquicksort. -/
def insShift (v : List Int) (pl : Nat) (vp : Int) : Nat → List Nat → Nat → (List Nat × Nat)
  | 0, t, j => (t, j)
  | fuel + 1, t, j =>
    if pl < j ∧ vp < vAt v (tAt t (j - 1)) then
      insShift v pl vp fuel (t.set j (tAt t (j - 1))) (j - 1)
    else (t, j)

/-- The insertion-sort phase of aquicksort over [pl, pr]
(`for (pi = pl + 1; pi <= pr; ++pi)`). -/
def insLoop (v : List Int) (pl pr : Nat) : Nat → List Nat → Nat → List Nat
  | 0, t, _ => t
  | fuel + 1, t, i =>
    if i ≤ pr then
      let vi := tAt t i
      let p := insShift v pl (vAt v vi) (fuel + 1) t i
      insLoop v pl pr fuel (p.1.set p.2 vi) (i + 1)
    else t

/-- Insertion sort of the subrange [pl, pr] as aquicksort performs it. -/
def insSortRange (v : List Int) (t : List Nat) (pl pr : Nat) : List Nat :=
  insLoop v pl pr (pr + 2) t (pl + 1)

/-- Main loop of numpy's `aquicksort_` (npysort/quicksort.c.src): an
introsort over the tosort index array — median-of-3 pivot partitioning with
an explicit stack of pending ranges, pushing the larger side; subranges of
at most SMALL_QUICKSORT = 15 elements go to insertion sort; when the depth
budget `depth_limit` runs out a subrange is heapsorted. -/
def qsLoop (v : List Int) : Nat → List Nat → List (Nat × Nat) → Int → Nat → Nat → List Nat
  | 0, t, _, _, _, _ => t
  | fuel + 1, t, stack, depth, pl, pr =>
    if 15 < pr - pl then
      if depth < 0 then
        let t := aheapsortRange v t pl pr
        match stack with
        | [] => t
        | (pl2, pr2) :: rest => qsLoop v fuel t rest (depth - 1) pl2 pr2
      else
        let pm := pl + (pr - pl) / 2
        let t := if vAt v (tAt t pm) < vAt v (tAt t pl) then tSwap t pm pl else t
        let t := if vAt v (tAt t pr) < vAt v (tAt t pm) then tSwap t pr pm else t
        let t := if vAt v (tAt t pm) < vAt v (tAt t pl) then tSwap t pm pl else t
        let vp := vAt v (tAt t pm)
        let t := tSwap t pm (pr - 1)
        let p := partLoop v vp (fuel + 1) t pl (pr - 1)
        let pi := p.2
        let t := tSwap p.1 pi (pr - 1)
        if pi - pl < pr - pi then
          qsLoop v fuel t ((pi + 1, pr) :: stack) (depth - 1) pl (pi - 1)
        else
          qsLoop v fuel t ((pl, pi - 1) :: stack) (depth - 1) (pi + 1) pr
    else
      let t := insSortRange v t pl pr
      match stack with
      | [] => t
      | (pl2, pr2) :: rest => qsLoop v fuel t rest depth pl2 pr2

/-- numpy `argsort(kind='quicksort')` on int64 values: aquicksort_ run on
the identity index array, with `depth_limit = npy_get_msb(num) * 2`. -/
def npArgsortQuick (v : List Int) : List Nat :=
  if v.length = 0 then []
  else qsLoop v ((v.length + 2) * (v.length + 2)) (List.range v.length) []
    (2 * (Nat.log2 v.length : Int)) 0 (v.length - 1)

/-- pandas `nargsort(values, kind='quicksort', ascending=False)`
(pandas/core/sorting.py): reverse the values and the index array, argsort
the reversed values with numpy's quicksort, read the positions through the
reversed index array, and reverse the result. (An int64 score column holds
no NaNs, so the NaN bookkeeping of nargsort is vacuous.) -/
def nargsortDesc (vals : List Int) : List Nat :=
  let nonNans := vals.reverse
  let nonNanIdx := (List.range vals.length).reverse
  let indexer := (npArgsortQuick nonNans).map (fun p => nonNanIdx.getD p 0)
  indexer.reverse

/-- The selection core of `run_alert_check` (src/scheduler.py lines 65-70):
compute the SignalStrength column, keep rows whose trade type contains
'purchase' case-insensitively, sort descending by SignalStrength
(`sort_values` with its default kind='quicksort', i.e. numpy introsort
through pandas nargsort) and take `.iloc[0]`, the row at the first sorted
position. `none` models the IndexError raised on an empty table. The
raw-string numeric parsing of lines 65-66 is elided: embedded rows already
hold numbers. -/
def run_alert_top (tbl : List Row) : Option Row :=
  let df := tbl.map (fun r => { r with signalStrength := calculate_signal_strength_sched r })
  let df := df.filter (fun r => containsSub ("purchase".data) (lowerData r.tradeType))
  match nargsortDesc (df.map (fun r => r.signalStrength)) with
  | [] => none
  | i :: _ => some (df.getD i default)

/-- Filler row for the C3 counterexample table: scores 0. -/
def clerkRow : Row :=
  { tradeDate := 0, ticker := "T", insiderName := "Clerk", title := "Clerk",
    tradeType := "P - Purchase", shares := 0, price := 10 }

/-- First of the two tied top-scoring rows (score 75), at position 14. -/
def ceoAlice : Row :=
  { tradeDate := 14, ticker := "T", insiderName := "Alice", title := "CEO",
    tradeType := "P - Purchase", shares := 2000000, price := 1 }

/-- Second tied top-scoring row (score 75), at position 15. -/
def ceoBob : Row :=
  { tradeDate := 15, ticker := "T", insiderName := "Bob", title := "CEO",
    tradeType := "P - Purchase", shares := 2000000, price := 1 }

/-- A 17-row alert table whose two maximal-score rows sit at positions 14
and 15. (17 rows force the quicksort partition phase: numpy insertion-sorts
ranges of at most 16.) -/
def alertTable : List Row :=
  [clerkRow, clerkRow, clerkRow, clerkRow, clerkRow, clerkRow, clerkRow,
   clerkRow, clerkRow, clerkRow, clerkRow, clerkRow, clerkRow, clerkRow,
   ceoAlice, ceoBob, clerkRow]

/-- pandas algos.kth_smallest (a quickselect): the k-th smallest value,
0-based, i.e. position k of the ascending-sorted array. -/
def kthSmallest (l : List Int) (k : Nat) : Int :=
  (List.insertionSort (fun a b : Int => a ≤ b) l).getD k 0

/-- Indices ordered by (value at the index, then index): numpy's stable
mergesort argsort returns the indices sorted exactly by this relation —
sorted by value, ties in position order. -/
def argLex (arr : List Int) (i j : Nat) : Prop :=
  vAt arr i < vAt arr j ∨ (vAt arr i = vAt arr j ∧ i ≤ j)

instance (arr : List Int) : DecidableRel (argLex arr) := fun _ _ =>
  inferInstanceAs (Decidable (_ ∨ _))

/-- pandas nlargest on the SignalStrength column — SelectNSeries.compute for
method='nlargest' with keep='first' (DataFrame.nlargest on a single column
delegates to it): for K ≤ 0 the result is empty; for K ≥ len the "slow"
path returns the rows in descending sort_values order (numpy quicksort via
nargsort) cut to K; otherwise the "fast" path negates the values, takes the
K-th smallest of the negated array (kth_smallest), collects the positions
whose value is ≤ that bound in position order (np.nonzero), stable-sorts
them by value (mergesort argsort), keeps the first K, and returns those
rows in that order. -/
def pandas_nlargest (K : Nat) (df : List Row) : List Row :=
  if K = 0 then []
  else if df.length ≤ K then
    ((nargsortDesc (df.map (fun r => r.signalStrength))).map (fun i => df.getD i default)).take K
  else
    let arr := df.map (fun r => -r.signalStrength)
    let kth := kthSmallest arr (K - 1)
    let ns := (List.range df.length).filter (fun i => decide (vAt arr i ≤ kth))
    ((List.insertionSort (argLex arr) ns).take K).map (fun i => df.getD i default)

/-- Positions ordered by descending signalStrength, ties in input order:
the ordering the spec's topByScore contract describes. -/
def scoreLex (df : List Row) (i j : Nat) : Prop :=
  (df.getD j default).signalStrength < (df.getD i default).signalStrength ∨
    ((df.getD i default).signalStrength = (df.getD j default).signalStrength ∧ i ≤ j)

instance (df : List Row) : DecidableRel (scoreLex df) := fun _ _ =>
  inferInstanceAs (Decidable (_ ∨ _))

/-- Reference topByScore: the first K records in (score descending, input
position ascending) order — "top-K by signalStrength, ties broken by input
order". -/
def topByScoreSpec (K : Nat) (df : List Row) : List Row :=
  ((List.insertionSort (scoreLex df) (List.range df.length)).take K).map
    (fun i => df.getD i default)

/-- Reading a list through vAt along its range reproduces the list. -/
theorem map_vAt_range : ∀ arr : List Int, (List.range arr.length).map (fun i => vAt arr i) = arr
  | [] => rfl
  | a :: l => by
    rw [List.length_cons, List.range_succ_eq_map, List.map_cons, List.map_map]
    have h1 : vAt (a :: l) 0 = a := rfl
    have h2 : ((fun i => vAt (a :: l) i) ∘ Nat.succ) = fun i => vAt l i := by
      funext i
      rfl
    rw [h1, h2, map_vAt_range l]

/-- The negated-score array reads back the (defaulted) record scores. -/
theorem vAt_neg_map (df : List Row) (i : Nat) :
    vAt (df.map (fun r => -r.signalStrength)) i = -(df.getD i default).signalStrength := by
  unfold vAt
  rcases Nat.lt_or_ge i df.length with h | h
  · rw [List.getD_eq_getElem?_getD, List.getD_eq_getElem?_getD,
      List.getElem?_eq_getElem (by simpa using h), List.getElem?_eq_getElem h,
      Option.getD_some, Option.getD_some, List.getElem_map]
  · rw [List.getD_eq_getElem?_getD, List.getD_eq_getElem?_getD,
      List.getElem?_eq_none (by simpa using h), List.getElem?_eq_none h]
    rfl

/-- On the negated-score array, the stable argsort order coincides with the
descending-score/input-order relation of the spec. -/
theorem argLex_iff_scoreLex (df : List Row) (i j : Nat) :
    argLex (df.map (fun r => -r.signalStrength)) i j ↔ scoreLex df i j := by
  unfold argLex scoreLex
  rw [vAt_neg_map, vAt_neg_map]
  omega

/-- Inserting under two pointwise-equivalent relations gives the same
list. -/
theorem orderedInsert_congr {α : Type} (r s : α → α → Prop) [DecidableRel r] [DecidableRel s]
    (a : α) : ∀ l : List α, (∀ b ∈ l, (r a b ↔ s a b)) →
    List.orderedInsert r a l = List.orderedInsert s a l
  | [], _ => rfl
  | b :: l, h => by
    simp only [List.orderedInsert]
    by_cases hr : r a b
    · rw [if_pos hr, if_pos ((h b (List.mem_cons_self b l)).mp hr)]
    · rw [if_neg hr, if_neg (fun hs2 => hr ((h b (List.mem_cons_self b l)).mpr hs2)),
        orderedInsert_congr r s a l (fun c hc => h c (List.mem_cons_of_mem b hc))]

/-- Sorting under two relations that agree on the list gives the same
list. -/
theorem insertionSort_congr {α : Type} (r s : α → α → Prop) [DecidableRel r] [DecidableRel s] :
    ∀ l : List α, (∀ a ∈ l, ∀ b ∈ l, (r a b ↔ s a b)) →
    List.insertionSort r l = List.insertionSort s l
  | [], _ => rfl
  | a :: l, h => by
    simp only [List.insertionSort]
    rw [insertionSort_congr r s l
      (fun x hx y hy => h x (List.mem_cons_of_mem a hx) y (List.mem_cons_of_mem a hy))]
    exact orderedInsert_congr r s a _ (fun b hb =>
      h a (List.mem_cons_self a l) b
        (List.mem_cons_of_mem a ((List.mem_insertionSort s).mp hb)))

/-- In a list sorted by R, filtering by a predicate downward closed along R
keeps exactly an initial segment. -/
theorem filter_sorted_eq_take {α : Type} {R : α → α → Prop} (p : α → Bool) :
    ∀ {l : List α}, l.Pairwise R → (∀ a b, R a b → p b = true → p a = true) →
      l.filter p = l.take (l.countP p)
  | [], _, _ => rfl
  | a :: l, hs, hcl => by
    rcases List.pairwise_cons.mp hs with ⟨hab, hl⟩
    by_cases hpa : p a = true
    · rw [List.filter_cons_of_pos hpa, List.countP_cons_of_pos _ _ hpa, List.take_succ_cons,
        filter_sorted_eq_take p hl hcl]
    · have hnone : ∀ b ∈ l, ¬ p b = true := fun b hb hpb => hpa (hcl a b (hab b hb) hpb)
      rw [List.filter_cons_of_neg hpa, List.countP_cons_of_neg _ _ hpa,
        List.countP_eq_zero.mpr hnone, List.take_zero, List.filter_eq_nil_iff.mpr hnone]

/-- At least K positions carry a (negated) value within the K-th smallest:
the selection bound of the pandas fast path. -/
theorem countP_le_kth (arr : List Int) (K : Nat) (hK1 : 1 ≤ K) (hK : K ≤ arr.length) :
    K ≤ (List.range arr.length).countP
      (fun i => decide (vAt arr i ≤ kthSmallest arr (K - 1))) := by
  set c := kthSmallest arr (K - 1) with hc
  have h1 : (List.range arr.length).countP (fun i => decide (vAt arr i ≤ c))
      = arr.countP (fun x => decide (x ≤ c)) := by
    conv_rhs => rw [← map_vAt_range arr]
    rw [List.countP_map]
    rfl
  rw [h1]
  have hperm : List.Perm (List.insertionSort (fun a b : Int => a ≤ b) arr) arr :=
    List.perm_insertionSort _ _
  rw [← hperm.countP_eq]
  set S := List.insertionSort (fun a b : Int => a ≤ b) arr with hS
  have hlenS : S.length = arr.length := List.length_insertionSort _ _
  have hsorted : S.Pairwise (fun a b : Int => a ≤ b) := List.sorted_insertionSort _ _
  have hKlt : K - 1 < S.length := by omega
  have hkth : c = S[K - 1] := by
    rw [hc]
    unfold kthSmallest
    rw [← hS, List.getD_eq_getElem?_getD, List.getElem?_eq_getElem hKlt, Option.getD_some]
  have hcount : (S.take K).countP (fun x => decide (x ≤ c))
      = (S.take K).length := by
    rw [List.countP_eq_length]
    intro x hx
    obtain ⟨i, hi, hxi⟩ := List.mem_iff_getElem.mp hx
    rw [decide_eq_true_eq, ← hxi, List.getElem_take, hkth]
    have hiK : i < K := lt_of_lt_of_le hi (by rw [List.length_take]; exact min_le_left _ _)
    rcases Nat.lt_or_ge i (K - 1) with hlt | hge
    · exact List.pairwise_iff_getElem.mp hsorted i (K - 1)
        (lt_of_lt_of_le hlt (le_of_lt hKlt)) hKlt hlt
    · have hieq : i = K - 1 := by omega
      subst hieq
      exact le_refl _
  have hlentake : (S.take K).length = K := by
    rw [List.length_take]
    omega
  have hsplit : S.take K ++ S.drop K = S := List.take_append_drop K S
  calc K = (S.take K).countP (fun x => decide (x ≤ c)) := by
        rw [hcount, hlentake]
    _ ≤ S.countP (fun x => decide (x ≤ c)) := by
        conv_rhs => rw [← hsplit]
        rw [List.countP_append]
        omega

/-- Claim C3 as amended, main part: for every scored collection and every
K < its size, pandas nlargest on SignalStrength with its default
keep='first' returns exactly the K records of highest signalStrength with
ties selected and ordered by input position (the first K of the stable
descending order). For K ≥ size pandas falls back to a full descending
sort_values — numpy quicksort — and the alerting top-1 in the scheduler
sorts with the same quicksort; neither guarantees input-order ties (see the
counterexample). -/
theorem c3_amended_stable_topk (df : List Row) (K : Nat) (hK : K < df.length) :
    pandas_nlargest K df = topByScoreSpec K df := by
  rcases Nat.eq_zero_or_pos K with h0 | hpos
  · subst h0
    unfold pandas_nlargest topByScoreSpec
    simp
  · unfold pandas_nlargest
    rw [if_neg (by omega), if_neg (by omega)]
    dsimp only
    unfold topByScoreSpec
    have hcongr : List.insertionSort (scoreLex df) (List.range df.length)
        = List.insertionSort (argLex (df.map (fun r => -r.signalStrength)))
          (List.range df.length) :=
      insertionSort_congr _ _ _ (fun i _ j _ => (argLex_iff_scoreLex df i j).symm)
    rw [hcongr]
    set arr := df.map (fun r => -r.signalStrength) with harr
    set p : Nat → Bool := fun i => decide (vAt arr i ≤ kthSmallest arr (K - 1)) with hp
    haveI hTot : IsTotal Nat (argLex arr) := ⟨fun i j => by unfold argLex; omega⟩
    haveI hTrans : IsTrans Nat (argLex arr) := ⟨fun a b c hab hbc => by
      unfold argLex at hab hbc ⊢
      omega⟩
    haveI hAnti : IsAntisymm Nat (argLex arr) := ⟨fun a b hab hba => by
      unfold argLex at hab hba
      omega⟩
    have hlenarr : arr.length = df.length := List.length_map _ _
    have hpermA : List.Perm (List.insertionSort (argLex arr) ((List.range df.length).filter p))
        ((List.insertionSort (argLex arr) (List.range df.length)).filter p) :=
      (List.perm_insertionSort _ _).trans
        ((List.perm_insertionSort (argLex arr) (List.range df.length)).filter p).symm
    have hAeq : List.insertionSort (argLex arr) ((List.range df.length).filter p)
        = (List.insertionSort (argLex arr) (List.range df.length)).filter p :=
      List.eq_of_perm_of_sorted hpermA (List.sorted_insertionSort _ _)
        ((List.sorted_insertionSort _ _).filter p)
    have hclosed : ∀ a b : Nat, argLex arr a b → p b = true → p a = true := by
      intro a b hab hpb
      rw [hp, decide_eq_true_eq] at hpb ⊢
      unfold argLex at hab
      omega
    have hBeq : (List.insertionSort (argLex arr) (List.range df.length)).filter p
        = (List.insertionSort (argLex arr) (List.range df.length)).take
            ((List.insertionSort (argLex arr) (List.range df.length)).countP p) :=
      filter_sorted_eq_take p (List.sorted_insertionSort _ _) hclosed
    have hcount : K ≤ (List.insertionSort (argLex arr) (List.range df.length)).countP p := by
      rw [(List.perm_insertionSort (argLex arr) (List.range df.length)).countP_eq]
      have hle := countP_le_kth arr K hpos (by omega)
      rw [hlenarr] at hle
      exact hle
    rw [hAeq, hBeq, List.take_take, min_eq_left hcount]

set_option maxRecDepth 100000 in
/-- Claim C3, counterexample: a 17-row purchase table whose two
maximal-score rows (score 75) sit at input positions 14 and 15. The claimed
stable tie-breaking would report the position-14 row (Alice); the
scheduler's top-1 — descending sort_values on SignalStrength followed by
iloc[0], with pandas' default numpy quicksort — reports the position-15 row
(Bob): ties are not broken by input order (the reported row does still
carry the maximal score). -/
theorem c3_counterexample :
    run_alert_top alertTable = some { ceoBob with signalStrength := 75 } ∧
    alertTable.getD 14 default = ceoAlice ∧
    alertTable.getD 15 default = ceoBob ∧
    calculate_signal_strength_sched ceoAlice = 75 ∧
    calculate_signal_strength_sched ceoBob = 75 ∧
    (∀ r ∈ alertTable, calculate_signal_strength_sched r ≤ 75) ∧
    ceoAlice.insiderName ≠ ceoBob.insiderName := by
  exact ⟨by decide, by decide, by decide, by decide, by decide, by decide, by decide⟩

/-- Claim C3 witness: the spec's stability scenario — scores [50, 80, 80,
30], K = 2 — through the amended theorem: the two score-80 records come
back in their original relative order. -/
theorem c3_witness :
    2 < ([{ insiderName := "P", signalStrength := 50 },
          { insiderName := "Q", signalStrength := 80 },
          { insiderName := "R", signalStrength := 80 },
          { insiderName := "S", signalStrength := 30 }] : List Row).length ∧
    pandas_nlargest 2
        [{ insiderName := "P", signalStrength := 50 },
         { insiderName := "Q", signalStrength := 80 },
         { insiderName := "R", signalStrength := 80 },
         { insiderName := "S", signalStrength := 30 }]
      = [{ insiderName := "Q", signalStrength := 80 },
         { insiderName := "R", signalStrength := 80 }] :=
  ⟨by decide, (c3_amended_stable_topk _ 2 (by decide)).trans (by decide)⟩

/-- Claim C9 (confirmed): on an empty collection detect_clusters returns an
empty collection for every windowDays/minInsiders without error, and
topByScore (pandas nlargest) returns an empty sequence for every K. -/
theorem c9_empty_inputs :
    (∀ w m : Int, detect_clusters [] w m = []) ∧
    (∀ K : Nat, pandas_nlargest K [] = []) := by
  constructor
  · intro w m
    rfl
  · intro K
    unfold pandas_nlargest
    rcases Nat.eq_zero_or_pos K with h | h
    · rw [if_pos h]
    · rw [if_neg (by omega), if_pos (by simp)]
      simp [nargsortDesc, npArgsortQuick]
